import Mathlib

/-!
Verification of the gpuid controller against its specification.

This file shallowly embeds the parts of the gpuid sources that the
checked properties talk about:

* `pkg/node/label.go` — label-value sanitization, desired-label
  computation (`calculateGPULabels`), the read-modify-write attempt
  (`attemptLabelUpdate`, `needsLabelUpdate`, `clearLabels`,
  `applyLabels`) and the retry policy of `EnsureLabels`;
* `pkg/gpu` — the `Serials` chassis groups and the
  `SerialNumberReading` record with its `Validate` and `Slice`
  methods;
* `pkg/runner` — the record construction loop of `Exporter.Export`,
  the `podReady` readiness predicate, the dedup `uidSet`
  (`Has`/`Add` with 30-minute TTL) and the dedup-relevant control
  flow of `processPod`;
* the CSV row construction of the S3 exporter's `Write`.

Go maps are modelled as association lists whose update operation
(`setL`) replaces the binding of an existing key in place, strings as
Lean strings (Go compares and sorts strings bytewise; for valid UTF-8
this coincides with the code-point order used by Lean's `String`
order), `time.Time` as a natural number of Unix seconds (`0` is the
zero time), and `time.Duration` as a natural number of nanoseconds.
Where the code calls library routines (`sort.Slice`, `sort.Strings`,
`regexp`, `strings.HasPrefix`/`TrimSpace`, `wait.ExponentialBackoff`,
`time.Format(time.RFC3339)`, `encoding/csv`) the embedding implements
their documented behaviour; `sort.Slice` is not stable, so any sorted
permutation is a valid execution and the embedding picks insertion
sort as one such execution.
-/

/-! ## Characters and Go string helpers -/

/-- ASCII alphanumeric test, the `[A-Za-z0-9]` class of
`pkg/node/label.go`'s regular expressions. -/
def isAlnum (c : Char) : Bool :=
  (65 ≤ c.toNat && c.toNat ≤ 90) || (97 ≤ c.toNat && c.toNat ≤ 122) ||
    (48 ≤ c.toNat && c.toNat ≤ 57)

/-- The `[A-Za-z0-9\-_.]` class of `labelValueRegex` in
`pkg/node/label.go`. -/
def isLabelChar (c : Char) : Bool :=
  isAlnum c || c == '-' || c == '_' || c == '.'

/-- Unicode white space as trimmed by Go's `strings.TrimSpace`
(`unicode.IsSpace`): space, `\t`, `\n`, `\v`, `\f`, `\r`, NEL and NBSP. -/
def goIsSpace (c : Char) : Bool :=
  c.toNat == 32 || c.toNat == 9 || c.toNat == 10 || c.toNat == 11 ||
    c.toNat == 12 || c.toNat == 13 || c.toNat == 133 || c.toNat == 160

/-- Drop the longest suffix whose characters satisfy `p`. -/
def dropWhileEnd (p : Char → Bool) (l : List Char) : List Char :=
  (l.reverse.dropWhile p).reverse

/-- Go's `strings.TrimSpace` on the character list of a string. -/
def goTrimSpace (l : List Char) : List Char :=
  dropWhileEnd goIsSpace (l.dropWhile goIsSpace)

/-- Go's `strings.TrimSpace`. -/
def goTrim (s : String) : String := String.mk (goTrimSpace s.data)

/-- Matching against `labelValueRegex =
`^[A-Za-z0-9]([A-Za-z0-9\-_.]*[A-Za-z0-9])?$`` from
`pkg/node/label.go`: nonempty, first and last characters alphanumeric,
interior characters in the label class. -/
def matchesLabelValue (l : List Char) : Bool :=
  match l.head?, l.getLast? with
  | some a, some b => isAlnum a && isAlnum b && (l.drop 1).dropLast.all isLabelChar
  | _, _ => false

/-- The sentinel `notSetDefault = "na"` of `pkg/node/label.go`. -/
def notSetDefault : String := "na"

/-- The per-character replacement
`regexp.MustCompile(`[^A-Za-z0-9\-_.]`).ReplaceAllString(value, "-")`. -/
def replaceInvalid (s : String) : List Char :=
  s.data.map fun c => if isLabelChar c then c else '-'

/-- Trimming of leading and trailing non-alphanumeric characters
(`^[^A-Za-z0-9]+` and `[^A-Za-z0-9]+$` replaced by the empty string). -/
def trimNonAlnum (l : List Char) : List Char :=
  dropWhileEnd (fun c => !isAlnum c) (l.dropWhile fun c => !isAlnum c)

/-- `sanitizeLabelValue` from `pkg/node/label.go`: empty and `"N/A"`
map to the sentinel; otherwise invalid characters are replaced by
hyphens, leading/trailing non-alphanumerics are trimmed, an empty or
regex-rejected result maps to the sentinel, and the result is returned
through `strings.TrimSpace`. -/
def sanitizeLabelValue (value : String) : String :=
  if value = "" then notSetDefault
  else if value = "N/A" then notSetDefault
  else if (trimNonAlnum (replaceInvalid value)).isEmpty then notSetDefault
  else if matchesLabelValue (trimNonAlnum (replaceInvalid value)) = false then
    notSetDefault
  else String.mk (goTrimSpace (trimNonAlnum (replaceInvalid value)))

/-! ## Label maps

Node labels (`map[string]string` in Go) are association lists; `setL`
is Go's map assignment: it overwrites the binding of an existing key
and otherwise appends a fresh one, so key sets stay duplicate-free. -/

/-- Node label maps. -/
abbrev Labels := List (String × String)

/-- `strings.HasPrefix s pre`. -/
def goHasPref (s pre : String) : Bool := pre.data.isPrefixOf s.data

/-- Go map read with the zero-value default: `current[k]` yields `""`
when `k` is absent. -/
def lookupD (m : Labels) (k : String) : String :=
  match m.find? (fun p => p.1 == k) with
  | some p => p.2
  | none => ""

/-- Go's two-result map read: `_, exists := m[k]`. -/
def hasKey (m : Labels) (k : String) : Bool :=
  (m.find? (fun p => p.1 == k)).isSome

/-- Go map assignment `m[k] = v`. -/
def setL (m : Labels) (k v : String) : Labels :=
  match m with
  | [] => [(k, v)]
  | p :: rest => if p.1 == k then (k, v) :: rest else p :: setL rest k v

/-- The label namespace `labelNS` of `pkg/node/label.go`. -/
def labelNS : String := "gpuid.github.com"

/-- `labelChassisPrefix` of `pkg/node/label.go`. -/
def labelChassisPref : String := "chassis"

/-- `labelChassisCount` of `pkg/node/label.go`. -/
def labelChassisCount : String := "chassis-count"

/-- `labelGPUPrefix` of `pkg/node/label.go`. -/
def labelGPUPref : String := "gpu"

/-- `clearLabels` from `pkg/node/label.go`: delete every key carrying
the `labelNS` namespace. -/
def clearLabels (m : Labels) : Labels :=
  m.filter fun p => !(goHasPref p.1 labelNS)

/-- `applyLabels` from `pkg/node/label.go`: write every desired pair
into the map. -/
def applyLabels (m desired : Labels) : Labels :=
  desired.foldl (fun acc p => setL acc p.1 p.2) m

/-- `needsLabelUpdate` from `pkg/node/label.go`: an update is needed
iff some namespaced key of `current` is absent from `desired`, or some
desired pair differs from the current value (missing keys read as
`""`). -/
def needsLabelUpdate (current desired : Labels) : Bool :=
  current.any (fun p => goHasPref p.1 labelNS && !(hasKey desired p.1)) ||
    desired.any (fun p => !(lookupD current p.1 == p.2))

/-- The node-visible outcome of one `attemptLabelUpdate` call:
whether `UpdateNode` was invoked, and the node's labels afterwards. -/
structure AttemptResult where
  updated : Bool
  labels : Labels
deriving DecidableEq, Repr

/-- `attemptLabelUpdate` from `pkg/node/label.go`, projected to its
node-visible effect: when `needsLabelUpdate` is false it returns
success without calling `UpdateNode`; otherwise it writes
`applyLabels (clearLabels current) desired` through `UpdateNode`. -/
def attemptLabelUpdate (current desired : Labels) : AttemptResult :=
  if needsLabelUpdate current desired = false then ⟨false, current⟩
  else ⟨true, applyLabels (clearLabels current) desired⟩

/-! ## Chassis groups and the desired label set -/

/-- `gpu.Serials`: one chassis serial together with its GPU serials. -/
structure Serials where
  chassis : String
  gpu : List String
deriving DecidableEq, Repr

/-- Go's bytewise string comparison `a < b`, on the character lists
(for valid UTF-8 the bytewise order of Go coincides with the
code-point lexicographic order). -/
def goStringLt (a b : String) : Bool := decide (a.data < b.data)

/-- The `less` closure handed to `sort.Slice` in `calculateGPULabels`:
nil entries sort last, non-nil entries ascending by chassis serial. -/
def lessSerials : Option Serials → Option Serials → Bool
  | none, _ => false
  | some _, none => true
  | some a, some b => goStringLt a.chassis b.chassis

/-- The non-strict order induced by `lessSerials`; `sort.Slice`
produces a permutation that is sorted with respect to it. -/
def leSerials (a b : Option Serials) : Bool := !(lessSerials b a)

/-- `leSerials` as a relation, for the sort. -/
def leSerialsP (a b : Option Serials) : Prop := leSerials a b = true

instance : DecidableRel leSerialsP := fun a b =>
  inferInstanceAs (Decidable (leSerials a b = true))

instance : IsTotal (Option Serials) leSerialsP := by
  constructor
  intro a b
  unfold leSerialsP leSerials
  match a, b with
  | none, b => right; cases b <;> simp [lessSerials]
  | some x, none => left; simp [lessSerials]
  | some x, some y =>
    by_cases h : x.chassis.data < y.chassis.data
    · left
      simp only [lessSerials, goStringLt, Bool.not_eq_true', decide_eq_false_iff_not]
      exact fun h2 => absurd h2 (lt_asymm h)
    · right
      simp only [lessSerials, goStringLt, Bool.not_eq_true', decide_eq_false_iff_not]
      exact h

instance : IsTrans (Option Serials) leSerialsP := by
  constructor
  intro a b c h1 h2
  unfold leSerialsP leSerials at *
  simp only [Bool.not_eq_true'] at h1 h2 ⊢
  match a, b, c, h1, h2 with
  | _, _, none, _, _ => cases a <;> simp [lessSerials]
  | none, none, some z, h1, h2 => exact h2
  | none, some y, some z, h1, h2 => simp [lessSerials] at h1
  | some x, none, some z, h1, h2 => simp [lessSerials] at h2
  | some x, some y, some z, h1, h2 =>
    simp only [lessSerials, goStringLt, decide_eq_false_iff_not, not_lt] at h1 h2 ⊢
    exact le_trans h1 h2

/-- The sort of `sortedSerials` in `calculateGPULabels`.  `sort.Slice`
is an unstable sort; insertion sort realizes one of its admissible
executions. -/
def sortSerials (l : List (Option Serials)) : List (Option Serials) :=
  l.insertionSort leSerialsP

/-- The non-strict order that Go's `sort.Strings` sorts by. -/
def goStringLE (a b : String) : Prop := a.data ≤ b.data

instance : DecidableRel goStringLE := fun a b =>
  inferInstanceAs (Decidable (a.data ≤ b.data))

instance : IsTotal String goStringLE := ⟨fun a b => le_total a.data b.data⟩

instance : IsTrans String goStringLE := ⟨fun _ _ _ h1 h2 => le_trans h1 h2⟩

/-- Go's `sort.Strings`: ascending bytewise order. -/
def sortStrings (l : List String) : List String :=
  l.insertionSort goStringLE

/-- The key `fmt.Sprintf("%s/%s-%d", labelNS, labelChassisPrefix, i)`. -/
def mkChassisKey (i : Nat) : String :=
  labelNS ++ "/" ++ labelChassisPref ++ "-" ++ toString i

/-- The key `fmt.Sprintf("%s/%s-%d", labelNS, labelGPUPrefix, j)` used
when the chassis serial is unknown. -/
def mkGpuKey (j : Nat) : String :=
  labelNS ++ "/" ++ labelGPUPref ++ "-" ++ toString j

/-- The key `fmt.Sprintf("%s/%s-%d-%s-%d", labelNS,
labelChassisPrefix, i, labelGPUPrefix, j)` used when the chassis
serial is known. -/
def mkChassisGpuKey (i j : Nat) : String :=
  labelNS ++ "/" ++ labelChassisPref ++ "-" ++ toString i ++ "-" ++
    labelGPUPref ++ "-" ++ toString j

/-- The key `fmt.Sprintf("%s/%s", labelNS, labelChassisCount)`. -/
def chassisCountKey : String := labelNS ++ "/" ++ labelChassisCount

/-- The inner `for j, g := range gpuSerials` loop of
`calculateGPULabels`: empty serials are skipped (their range index is
still consumed), and the label key carries the chassis index exactly
when the sanitized chassis serial is not the sentinel. -/
def gpuLabelLoop (i : Nat) (chassisSerial : String) :
    Nat → List String → Labels → Labels
  | _, [], labels => labels
  | j, g :: rest, labels =>
    if g = "" then gpuLabelLoop i chassisSerial (j + 1) rest labels
    else
      gpuLabelLoop i chassisSerial (j + 1) rest
        (setL labels
          (if chassisSerial = notSetDefault then mkGpuKey j
            else mkChassisGpuKey i j)
          (sanitizeLabelValue g))

/-- The outer `for i, s := range sortedSerials` loop of
`calculateGPULabels`: nil entries are skipped (their range index is
still consumed) and do not count toward the chassis count; a chassis
label is set only when the sanitized serial is not the sentinel. -/
def chassisLoop : Nat → Nat → List (Option Serials) → Labels → Labels × Nat
  | _, count, [], labels => (labels, count)
  | i, count, none :: rest, labels => chassisLoop (i + 1) count rest labels
  | i, count, some s :: rest, labels =>
    chassisLoop (i + 1) (count + 1) rest
      (gpuLabelLoop i (sanitizeLabelValue s.chassis) 0 (sortStrings s.gpu)
        (if sanitizeLabelValue s.chassis = notSetDefault then labels
          else setL labels (mkChassisKey i) (sanitizeLabelValue s.chassis)))

/-- `calculateGPULabels` from `pkg/node/label.go`. -/
def calculateGPULabels (serials : List (Option Serials)) : Labels :=
  if serials.isEmpty then []
  else
    let r := chassisLoop 0 0 (sortSerials serials) []
    setL r.1 chassisCountKey (toString r.2)

/-! ## Records and the export path -/

/-- Seconds per minute, minutes per hour etc. of the RFC 3339 clock
are fixed; this models `time.Time` as Unix seconds in UTC. -/
def civilFromDays (z0 : Nat) : Nat × Nat × Nat :=
  let z := z0 + 719468
  let era := z / 146097
  let doe := z % 146097
  let yoe := (doe - doe / 1460 + doe / 36524 - doe / 146096) / 365
  let doy := doe - (365 * yoe + yoe / 4 - yoe / 100)
  let mp := (5 * doy + 2) / 153
  let d := doy - (153 * mp + 2) / 5 + 1
  let m := if mp < 10 then mp + 3 else mp - 9
  (if m ≤ 2 then yoe + era * 400 + 1 else yoe + era * 400, m, d)

/-- Zero-pad to width two. -/
def pad2 (n : Nat) : String := if n < 10 then "0" ++ toString n else toString n

/-- Zero-pad to width four. -/
def pad4 (n : Nat) : String :=
  if n < 10 then "000" ++ toString n
  else if n < 100 then "00" ++ toString n
  else if n < 1000 then "0" ++ toString n
  else toString n

/-- Go's `t.Format(time.RFC3339)` for a UTC `time.Time`, on the Unix
seconds model: `YYYY-MM-DDTHH:MM:SSZ`. -/
def rfc3339Format (t : Nat) : String :=
  let days := t / 86400
  let rem := t % 86400
  let c := civilFromDays days
  pad4 c.1 ++ "-" ++ pad2 c.2.1 ++ "-" ++ pad2 c.2.2 ++ "T" ++
    pad2 (rem / 3600) ++ ":" ++ pad2 (rem % 3600 / 60) ++ ":" ++
    pad2 (rem % 60) ++ "Z"

/-- `gpu.SerialNumberReading`.  `pkg/runner/export.go` stamps a
chassis serial into each record, so the embedding carries the field;
the serialized schema (`Slice`) and `Validate` never touch it. -/
structure SerialNumberReading where
  cluster : String
  node : String
  machine : String
  source : String
  chassis : String
  gpu : String
  time : Nat
deriving DecidableEq, Repr

/-- `SerialNumberReading.Slice`: the CSV field sequence
`cluster, node, machine, source, gpu, time(RFC3339)`. -/
def SerialNumberReading.Slice (r : SerialNumberReading) : List String :=
  [r.cluster, r.node, r.machine, r.source, r.gpu, rfc3339Format r.time]

/-- `SerialNumberReading.Validate`: the first missing required field,
or `none` when the record is valid. -/
def SerialNumberReading.validate (r : SerialNumberReading) : Option String :=
  if r.cluster = "" then some "cluster name is required"
  else if r.node = "" then some "node name is required"
  else if r.machine = "" then some "machine name is required"
  else if r.source = "" then some "source name is required"
  else if r.gpu = "" then some "GPU identifier is required"
  else if r.time = 0 then some "time is required"
  else none

/-- The per-chassis inner loop of `Exporter.Export`: one record per
GPU serial, dropped (with a warning) when `Validate` rejects it. -/
def buildGPURecords (cluster nodeName machine source : String) (now : Nat)
    (chassis : String) : List String → List SerialNumberReading
  | [] => []
  | sn :: rest =>
    match (⟨cluster, nodeName, machine, source, chassis, sn, now⟩ :
        SerialNumberReading).validate with
    | some _ => buildGPURecords cluster nodeName machine source now chassis rest
    | none =>
      (⟨cluster, nodeName, machine, source, chassis, sn, now⟩ :
          SerialNumberReading) ::
        buildGPURecords cluster nodeName machine source now chassis rest

/-- The record-construction loop of `Exporter.Export`
(`pkg/runner/export.go`): nil groups and groups with an empty chassis
serial are skipped with a warning; each surviving group contributes
one validated record per GPU serial, with
`source = namespace ++ "/" ++ podName`, `node = pod.Spec.NodeName` and
`machine` the node provider identifier. -/
def buildRecords (cluster nodeName machine ns podName : String) (now : Nat) :
    List (Option Serials) → List SerialNumberReading
  | [] => []
  | none :: rest => buildRecords cluster nodeName machine ns podName now rest
  | some cn :: rest =>
    if cn.chassis = "" then
      buildRecords cluster nodeName machine ns podName now rest
    else
      buildGPURecords cluster nodeName machine (ns ++ "/" ++ podName) now
          cn.chassis cn.gpu ++
        buildRecords cluster nodeName machine ns podName now rest

/-- `Exporter.Export`, projected to its result and backend
interaction: guards on empty serials, blank cluster and blank node
identifier; the backend `Write` runs only on a nonempty batch of
validated records and is the only remaining failure source. -/
def exportCore (w : List SerialNumberReading → Except String Unit)
    (cluster nodeName machine ns podName : String) (now : Nat)
    (serials : List (Option Serials)) : Except String Unit :=
  if serials.isEmpty then .ok ()
  else if goTrim cluster = "" then .error "cluster name is required"
  else if goTrim machine = "" then .error "node name required"
  else
    let records := buildRecords cluster nodeName machine ns podName now serials
    if records.isEmpty then .ok ()
    else
      match w records with
      | .error e => .error ("exporter backend failed: " ++ e)
      | .ok _ => .ok ()

/-- The CSV rows written by the S3 exporter's `Write`: one
`record.Slice()` row per non-nil record, in order. -/
def s3CsvRows : List (Option SerialNumberReading) → List (List String)
  | [] => []
  | none :: rest => s3CsvRows rest
  | some r :: rest => r.Slice :: s3CsvRows rest

/-! ## Pod readiness -/

/-- The pod phases of `corev1.PodPhase` that `podReady` can observe. -/
inductive PodPhase where
  | pending
  | running
  | succeeded
  | failed
  | unknown
deriving DecidableEq, Repr

/-- One entry of `pod.Status.ContainerStatuses`, reduced to the field
`podReady` reads. -/
structure ContainerStatus where
  ready : Bool
deriving DecidableEq, Repr

/-- The slice of a `corev1.Pod` that `podReady` inspects:
`Status.Phase`, `len(Spec.Containers)` and `Status.ContainerStatuses`. -/
structure PodInfo where
  phase : PodPhase
  specContainers : Nat
  containerStatuses : List ContainerStatus
deriving DecidableEq, Repr

/-- `podReady` from `pkg/runner` (`client.go`): Running phase, at
least as many container statuses as declared containers, and every
status ready. -/
def podReady (p : PodInfo) : Bool :=
  if p.phase ≠ PodPhase.running then false
  else if p.containerStatuses.length < p.specContainers then false
  else p.containerStatuses.all fun s => s.ready

/-! ## The dedup TTL set and processPod -/

/-- `time.Second` in nanoseconds. -/
def second : Nat := 1000000000

/-- `time.Minute` in nanoseconds. -/
def minute : Nat := 60 * second

/-- `cacheTTL = 30 * time.Minute` from `pkg/runner/setter.go`. -/
def cacheTTL : Nat := 30 * minute

/-- The dedup map `uidSet.m : map[string]time.Time`, as an association
list from UID to the insertion timestamp. -/
abbrev UIDSet := List (String × Nat)

/-- The expiry sweep inside `uidSet.Has`: drop every entry with
`now.Sub(t) > cacheTTL`. -/
def expireUIDs (now : Nat) (s : UIDSet) : UIDSet :=
  s.filter fun p => now - p.2 ≤ cacheTTL

/-- Timestamp lookup in the dedup map. -/
def lookupUID (s : UIDSet) (uid : String) : Option Nat :=
  (s.find? fun p => p.1 == uid).map fun p => p.2

/-- The membership test of `uidSet.Has` after the sweep. -/
def hasUID (s : UIDSet) (uid : String) : Bool := (lookupUID s uid).isSome

/-- `uidSet.Add`: map assignment `m[uid] = now`. -/
def addUID (now : Nat) (uid : String) (s : UIDSet) : UIDSet :=
  (uid, now) :: s.filter fun p => !(p.1 == uid)

/-- Where one `processPod` run got to after the dedup gate: the
outcome of the external pipeline `exec → parse → label → provider →
export`.  `writeOk` and `writeFail` are the outcomes in which the
sink's `Write` was invoked. -/
inductive PipeOutcome where
  | execFail
  | noSerials
  | labelFail
  | providerFail
  | noValidRecords
  | writeFail
  | writeOk
deriving DecidableEq, Repr

/-- Whether the sink's `Write` ran in a pipeline with this outcome. -/
def sinkTouched : PipeOutcome → Bool
  | .writeFail => true
  | .writeOk => true
  | _ => false

/-- One invocation of `processPod` as the worker observes it: the pod
UID, the wall-clock time of the run, the readiness re-check result,
whether the jitter sleep was cancelled, and the pipeline outcome the
environment would produce. -/
structure PodEvent where
  uid : String
  time : Nat
  ready : Bool
  canceled : Bool
  outcome : PipeOutcome
deriving DecidableEq, Repr

/-- The dedup-relevant control flow of `processPod`
(`pkg/runner/client.go`): skip when not ready; `processed.Has` (with
its sweep) before dispatch; return on cancellation during the jitter
sleep; otherwise `processed.Add` before the first external call, then
run the pipeline.  The result is the dedup set afterwards, whether the
pipeline (starting with the pod exec) ran, and whether the sink's
`Write` ran. -/
def stepProcessPod (s : UIDSet) (e : PodEvent) : UIDSet × Bool × Bool :=
  if e.ready = false then (s, false, false)
  else if hasUID (expireUIDs e.time s) e.uid then
    (expireUIDs e.time s, false, false)
  else if e.canceled then (expireUIDs e.time s, false, false)
  else (addUID e.time e.uid (expireUIDs e.time s), true,
    sinkTouched e.outcome)

/-- The times of the events of a trace whose `processPod` run reached
the external pipeline (pod exec) for the given UID. -/
def execTimesU (uid : String) : UIDSet → List PodEvent → List Nat
  | _, [] => []
  | s, e :: rest =>
    (if (stepProcessPod s e).2.1 && (e.uid == uid) then [e.time] else []) ++
      execTimesU uid (stepProcessPod s e).1 rest

/-- The times of the events of a trace whose `processPod` run reached
the sink's `Write` for the given UID. -/
def sinkTimesU (uid : String) : UIDSet → List PodEvent → List Nat
  | _, [] => []
  | s, e :: rest =>
    (if (stepProcessPod s e).2.2 && (e.uid == uid) then [e.time] else []) ++
      sinkTimesU uid (stepProcessPod s e).1 rest

/-! ## The EnsureLabels retry policy -/

/-- The Kubernetes API error kinds that `EnsureLabels` distinguishes
via `errors.IsForbidden` and `errors.IsInvalid`. -/
inductive KErr where
  | forbidden
  | invalid
  | conflict
  | other
deriving DecidableEq, Repr

/-- The result of one `wait.ExponentialBackoff` run. -/
inductive BackoffResult where
  | ok
  | timeout
  | failed (e : KErr)
deriving DecidableEq, Repr

/-- `maxRetries = 5` from `pkg/node/label.go`. -/
def maxRetries : Nat := 5

/-- `retryBackoff = 2 * time.Second` from `pkg/node/label.go`, in
nanoseconds. -/
def retryBackoff : Nat := 2 * second

/-- `maxRetryBackoff = 45 * time.Second` from `pkg/node/label.go`, in
nanoseconds. -/
def maxRetryBackoff : Nat := 45 * second

/-- The `wait.Backoff` parameter structure: initial duration and cap
in nanoseconds, growth factor and jitter fraction as rationals, and
the step budget. -/
structure Backoff where
  duration : Nat
  factor : ℚ
  jitter : ℚ
  steps : Nat
  cap : Nat
deriving DecidableEq, Repr

/-- The `wait.Backoff` literal passed by `EnsureLabels`. -/
def ensureBackoff : Backoff :=
  { duration := retryBackoff, factor := 2, jitter := 1/10,
    steps := maxRetries, cap := maxRetryBackoff }

/-- The condition closure of `EnsureLabels` around one
`attemptLabelUpdate` call, whose Go result is `(success bool, err
error)`: Forbidden and Invalid errors stop the backoff and surface;
any other error converts to `(false, nil)`, which retries; a
successful attempt returns its boolean. -/
def ensureCondition : Except KErr Bool → Bool × Option KErr
  | .error .forbidden => (false, some .forbidden)
  | .error .invalid => (false, some .invalid)
  | .error _ => (false, none)
  | .ok b => (b, none)

/-- `wait.ExponentialBackoff`: run the condition up to `steps` times,
returning its error as soon as it yields one, success as soon as it
yields `true`, and a timeout when the step budget is exhausted.  The
second component counts the condition invocations; `i` is the index of
the next attempt. -/
def runBackoff (cond : Nat → Bool × Option KErr) : Nat → Nat → BackoffResult × Nat
  | 0, i => (.timeout, i)
  | n + 1, i =>
    match cond i with
    | (_, some e) => (.failed e, i + 1)
    | (true, none) => (.ok, i + 1)
    | (false, none) => runBackoff cond n (i + 1)

/-- The retry loop of `EnsureLabels`, driven by an oracle giving the
result of the `k`-th `attemptLabelUpdate` call. -/
def ensureLabelsRun (att : Nat → Except KErr Bool) : BackoffResult × Nat :=
  runBackoff (fun i => ensureCondition (att i)) ensureBackoff.steps 0

/-- Key sets of the association-list model of Go maps are
duplicate-free; `setL` and filtering preserve this. -/
def NodupKeys {α : Type} (m : List (String × α)) : Prop :=
  (m.map Prod.fst).Nodup

/-! ## Theorems -/

/-- An alphanumeric character is not white space. -/
lemma alnum_not_space {c : Char} (h : isAlnum c = true) : goIsSpace c = false := by
  simp only [isAlnum, Bool.or_eq_true, Bool.and_eq_true, decide_eq_true_eq] at h
  simp only [goIsSpace, Bool.or_eq_false_iff, beq_eq_false_iff_ne, ne_eq]
  omega

/-- `dropWhile` is the identity when the head (if any) fails the
predicate. -/
lemma dropWhile_eq_self (p : Char → Bool) (l : List Char)
    (h : ∀ a, l.head? = some a → p a = false) : l.dropWhile p = l := by
  cases l with
  | nil => rfl
  | cons a t => rw [List.dropWhile_cons, h a rfl]; simp

/-- A string matching the label-value grammar starts and ends with an
alphanumeric character, so `strings.TrimSpace` leaves it unchanged. -/
lemma goTrimSpace_eq_self {l : List Char} (h : matchesLabelValue l = true) :
    goTrimSpace l = l := by
  unfold matchesLabelValue at h
  cases hh : l.head? with
  | none => rw [hh] at h; cases hg : l.getLast? <;> rw [hg] at h <;> simp at h
  | some a =>
    cases hg : l.getLast? with
    | none => rw [hh, hg] at h; simp at h
    | some b =>
      rw [hh, hg] at h
      simp only [Bool.and_eq_true] at h
      obtain ⟨⟨ha, hb⟩, hmid⟩ := h
      unfold goTrimSpace
      rw [dropWhile_eq_self _ _ fun x hx => by
        rw [hh] at hx; cases hx; exact alnum_not_space ha]
      unfold dropWhileEnd
      rw [dropWhile_eq_self _ _ fun x hx => by
        rw [List.head?_reverse, hg] at hx; cases hx; exact alnum_not_space hb]
      exact List.reverse_reverse l

/-- Claim C9: for every input string `s`, `sanitizeLabelValue s` is
either the sentinel `"na"` or a string matching the label-value
grammar `^[A-Za-z0-9]([A-Za-z0-9._-]*[A-Za-z0-9])?$`. -/
theorem sanitize_label_value_grammar (s : String) :
    sanitizeLabelValue s = notSetDefault ∨
      matchesLabelValue (sanitizeLabelValue s).data = true := by
  unfold sanitizeLabelValue
  split_ifs with h1 h2 h3 h4
  · exact Or.inl rfl
  · exact Or.inl rfl
  · exact Or.inl rfl
  · exact Or.inl rfl
  · right
    have hm : matchesLabelValue (trimNonAlnum (replaceInvalid s)) = true := by
      cases hmm : matchesLabelValue (trimNonAlnum (replaceInvalid s)) with
      | false => exact absurd hmm h4
      | true => rfl
    show matchesLabelValue (goTrimSpace (trimNonAlnum (replaceInvalid s))) = true
    rw [goTrimSpace_eq_self hm]
    exact hm

/-- Claim C6, counterexample: a Running pod with more container
statuses (all ready) than declared containers passes `podReady`, while
the claimed predicate (which requires the counts to be equal) rejects
it. -/
theorem pod_ready_counterexample :
    podReady ⟨PodPhase.running, 0, [⟨true⟩]⟩ = true ∧
      (⟨PodPhase.running, 0, [⟨true⟩]⟩ : PodInfo).containerStatuses.length ≠
        (⟨PodPhase.running, 0, [⟨true⟩]⟩ : PodInfo).specContainers := by
  exact ⟨rfl, by decide⟩

/-- Claim C6, amended: `podReady` holds iff the phase is Running, the
pod has at least as many container statuses as declared containers
(the code checks `len(statuses) < len(containers)`, not inequality of
the counts), and every container status reports ready. -/
theorem pod_ready_iff (p : PodInfo) :
    podReady p = true ↔
      p.phase = PodPhase.running ∧
        p.specContainers ≤ p.containerStatuses.length ∧
        ∀ st ∈ p.containerStatuses, st.ready = true := by
  unfold podReady
  split_ifs with h1 h2
  · simp only [Bool.false_eq_true, false_iff, not_and]
    intro hp
    exact absurd hp h1
  · simp only [Bool.false_eq_true, false_iff, not_and]
    intro _ hc
    omega
  · rw [not_not] at h1
    simp only [List.all_eq_true, h1, true_and]
    constructor
    · intro ha
      exact ⟨by omega, ha⟩
    · intro ⟨_, ha⟩
      exact ha

/-- Witness for `pod_ready_iff` at a concrete ready pod. -/
theorem pod_ready_iff_witness :
    podReady ⟨PodPhase.running, 1, [⟨true⟩]⟩ = true :=
  (pod_ready_iff ⟨PodPhase.running, 1, [⟨true⟩]⟩).mpr
    ⟨rfl, by decide, by decide⟩

/-- Claim C1, counterexample: the CSV row of a record has six fields,
not seven — the chassis serial is absent from `Slice`. -/
theorem slice_counterexample :
    (SerialNumberReading.Slice ⟨"c", "n", "m", "s", "ch", "g", 5⟩).length ≠ 7 ∧
      SerialNumberReading.Slice ⟨"c", "n", "m", "s", "ch", "g", 5⟩ =
        ["c", "n", "m", "s", "g", rfc3339Format 5] :=
  ⟨by decide, rfl⟩

/-- Claim C1, amended: every CSV row emitted by the S3 exporter's
`Write` is the `Slice` of one of its records, carrying exactly the six
fields `cluster, node, machine, source, gpu, time` in this order, with
the time formatted per RFC 3339. -/
theorem s3_csv_rows_schema (records : List (Option SerialNumberReading))
    (row : List String) (h : row ∈ s3CsvRows records) :
    ∃ r : SerialNumberReading, some r ∈ records ∧
      row = [r.cluster, r.node, r.machine, r.source, r.gpu,
        rfc3339Format r.time] := by
  induction records with
  | nil => simp [s3CsvRows] at h
  | cons a rest ih =>
    cases a with
    | none =>
      obtain ⟨r, hr, hrow⟩ := ih h
      exact ⟨r, List.mem_cons_of_mem _ hr, hrow⟩
    | some r =>
      rw [show s3CsvRows (some r :: rest) = r.Slice :: s3CsvRows rest from rfl]
        at h
      rcases List.mem_cons.mp h with hrow | hmem
      · exact ⟨r, List.mem_cons_self _ _, hrow⟩
      · obtain ⟨r2, hr2, hrow2⟩ := ih hmem
        exact ⟨r2, List.mem_cons_of_mem _ hr2, hrow2⟩

/-- Witness for `s3_csv_rows_schema` at a one-record batch. -/
theorem s3_csv_rows_schema_witness :
    ∃ r : SerialNumberReading,
      some r ∈ [some (⟨"c", "n", "m", "s", "ch", "g", 5⟩ : SerialNumberReading)] ∧
        SerialNumberReading.Slice ⟨"c", "n", "m", "s", "ch", "g", 5⟩ =
          [r.cluster, r.node, r.machine, r.source, r.gpu,
            rfc3339Format r.time] :=
  s3_csv_rows_schema _ _ (List.mem_cons_self _ _)

/-- `find?` is unchanged by filtering with a predicate implied by the
search predicate. -/
lemma find?_filter_of_imp {α : Type} (p q : α → Bool) (l : List α)
    (h : ∀ x, p x = true → q x = true) :
    (l.filter q).find? p = l.find? p := by
  induction l with
  | nil => rfl
  | cons a t ih =>
    rw [List.filter_cons]
    cases hq : q a with
    | true =>
      simp only [if_pos]
      rw [List.find?_cons, List.find?_cons]
      cases hp : p a
      · exact ih
      · rfl
    | false =>
      have hp : p a = false := by
        cases hpa : p a
        · rfl
        · rw [h a hpa] at hq; cases hq
      simp only [Bool.false_eq_true, if_false]
      rw [List.find?_cons, hp]
      exact ih

/-- Reads of keys outside the namespace pass through `clearLabels`. -/
lemma lookupD_clearLabels {current : Labels} {k : String}
    (h : goHasPref k labelNS = false) :
    lookupD (clearLabels current) k = lookupD current k := by
  unfold lookupD clearLabels
  rw [find?_filter_of_imp]
  intro x hx
  have hk : x.1 = k := by simpa using hx
  rw [hk, h]
  rfl

/-- Every entry of `setL m k v` is an entry of `m` or the new pair. -/
lemma mem_setL {m : Labels} {k v : String} {p : String × String}
    (h : p ∈ setL m k v) : p ∈ m ∨ p = (k, v) := by
  induction m with
  | nil =>
    simp only [setL, List.mem_singleton] at h
    exact Or.inr h
  | cons a t ih =>
    unfold setL at h
    by_cases ha : (a.1 == k) = true
    · rw [if_pos ha] at h
      rcases List.mem_cons.mp h with h1 | h1
      · exact Or.inr h1
      · exact Or.inl (List.mem_cons_of_mem _ h1)
    · rw [if_neg ha] at h
      rcases List.mem_cons.mp h with h1 | h1
      · exact Or.inl (h1 ▸ List.mem_cons_self _ _)
      · rcases ih h1 with h2 | h2
        · exact Or.inl (List.mem_cons_of_mem _ h2)
        · exact Or.inr h2

/-- Reading back the key just written. -/
lemma lookupD_setL_self (m : Labels) (k v : String) :
    lookupD (setL m k v) k = v := by
  induction m with
  | nil => simp [setL, lookupD]
  | cons a t ih =>
    unfold setL
    by_cases ha : (a.1 == k) = true
    · rw [if_pos ha]
      simp [lookupD, List.find?_cons]
    · rw [if_neg ha]
      unfold lookupD
      rw [List.find?_cons]
      simp only [Bool.not_eq_true] at ha
      rw [ha]
      exact ih

/-- Writing one key does not disturb reads of another. -/
lemma lookupD_setL_ne (m : Labels) {k k' : String} (h : k' ≠ k) (v : String) :
    lookupD (setL m k v) k' = lookupD m k' := by
  induction m with
  | nil =>
    simp only [setL, lookupD, List.find?]
    have : (k == k') = false := by
      simpa using fun he => h he.symm
    rw [this]
  | cons a t ih =>
    unfold setL
    by_cases ha : (a.1 == k) = true
    · rw [if_pos ha]
      unfold lookupD
      rw [List.find?_cons, List.find?_cons]
      have ha' : a.1 = k := by simpa using ha
      have h1 : (k == k') = false := by simpa using fun he => h he.symm
      have h2 : (a.1 == k') = false := by
        rw [ha']
        exact h1
      rw [h1, h2]
    · rw [if_neg ha]
      unfold lookupD
      rw [List.find?_cons, List.find?_cons]
      cases hp : (a.1 == k')
      · exact ih
      · rfl

/-- The keys of `setL m k v` are `k` and keys of `m`. -/
lemma keys_setL {m : Labels} {k v x : String}
    (h : x ∈ (setL m k v).map Prod.fst) : x = k ∨ x ∈ m.map Prod.fst := by
  obtain ⟨p, hp, hx⟩ := List.mem_map.mp h
  rcases mem_setL hp with h1 | h1
  · exact Or.inr (hx ▸ List.mem_map_of_mem _ h1)
  · exact Or.inl (by rw [← hx, h1])

/-- `setL` keeps key sets duplicate-free. -/
lemma nodupKeys_setL {m : Labels} (k v : String) (h : NodupKeys m) :
    NodupKeys (setL m k v) := by
  induction m with
  | nil => simp [setL, NodupKeys]
  | cons a t ih =>
    unfold NodupKeys at h
    rw [List.map_cons, List.nodup_cons] at h
    obtain ⟨hna, hnt⟩ := h
    unfold setL
    by_cases ha : (a.1 == k) = true
    · rw [if_pos ha]
      have ha' : a.1 = k := by simpa using ha
      unfold NodupKeys
      rw [List.map_cons, List.nodup_cons]
      exact ⟨ha' ▸ hna, hnt⟩
    · rw [if_neg ha]
      unfold NodupKeys
      rw [List.map_cons, List.nodup_cons]
      refine ⟨fun hmem => ?_, ih hnt⟩
      rcases keys_setL hmem with h1 | h1
      · exact ha (by rw [h1]; exact beq_self_eq_true k)
      · exact hna h1

/-- `applyLabels` unfolds one desired pair at a time. -/
lemma applyLabels_cons (m : Labels) (p : String × String) (rest : Labels) :
    applyLabels m (p :: rest) = applyLabels (setL m p.1 p.2) rest := rfl

/-- Keys not written by `applyLabels` read as before. -/
lemma lookupD_applyLabels_of_not_mem {k : String} :
    ∀ (d m : Labels), (∀ p ∈ d, p.1 ≠ k) →
      lookupD (applyLabels m d) k = lookupD m k
  | [], _, _ => rfl
  | p :: rest, m, h => by
    rw [applyLabels_cons,
      lookupD_applyLabels_of_not_mem rest _
        fun q hq => h q (List.mem_cons_of_mem _ hq)]
    exact lookupD_setL_ne m
      (fun he => h p (List.mem_cons_self _ _) he.symm) p.2

/-- Every entry after `applyLabels` comes from the base map or carries
a desired key. -/
lemma mem_applyLabels {p : String × String} :
    ∀ (d m : Labels), p ∈ applyLabels m d →
      p ∈ m ∨ p.1 ∈ d.map Prod.fst
  | [], _, h => Or.inl h
  | q :: rest, m, h => by
    rw [applyLabels_cons] at h
    rcases mem_applyLabels rest _ h with h1 | h1
    · rcases mem_setL h1 with h2 | h2
      · exact Or.inl h2
      · refine Or.inr ?_
        rw [h2]
        exact List.mem_map_of_mem _ (List.mem_cons_self _ _)
    · exact Or.inr (List.mem_map.mpr (by
        obtain ⟨r, hr, hrk⟩ := List.mem_map.mp h1
        exact ⟨r, List.mem_cons_of_mem _ hr, hrk⟩))

/-- With duplicate-free desired keys, `applyLabels` realizes every
desired pair. -/
lemma lookupD_applyLabels_mem :
    ∀ (d m : Labels), NodupKeys d →
      ∀ p ∈ d, lookupD (applyLabels m d) p.1 = p.2
  | [], _, _, _, hp => absurd hp (List.not_mem_nil _)
  | q :: rest, m, hnd, p, hp => by
    unfold NodupKeys at hnd
    rw [List.map_cons, List.nodup_cons] at hnd
    obtain ⟨hq, hrest⟩ := hnd
    rw [applyLabels_cons]
    rcases List.mem_cons.mp hp with h1 | h1
    · subst h1
      rw [lookupD_applyLabels_of_not_mem rest _
        fun r hr he => hq (by rw [← he]; exact List.mem_map_of_mem _ hr)]
      exact lookupD_setL_self m p.1 p.2
    · exact lookupD_applyLabels_mem rest _ hrest p h1

/-- A key appearing among the keys of a map is found by `hasKey`. -/
lemma hasKey_of_mem_keys {d : Labels} {k : String}
    (h : k ∈ d.map Prod.fst) : hasKey d k = true := by
  obtain ⟨p, hp, hk⟩ := List.mem_map.mp h
  unfold hasKey
  rw [List.find?_isSome]
  exact ⟨p, hp, by rw [hk]; exact beq_self_eq_true k⟩

/-- After a write of `applyLabels (clearLabels current) desired`, no
further update is needed: the written map agrees with `desired` on all
desired keys and carries no stale namespaced key. -/
lemma needsLabelUpdate_after (current desired : Labels)
    (hnd : NodupKeys desired) :
    needsLabelUpdate (applyLabels (clearLabels current) desired) desired
      = false := by
  unfold needsLabelUpdate
  rw [Bool.or_eq_false_iff]
  constructor
  · rw [List.any_eq_false]
    intro p hp
    rcases mem_applyLabels desired _ hp with h1 | h1
    · have : (!(goHasPref p.1 labelNS)) = true := (List.mem_filter.mp h1).2
      rw [Bool.not_eq_true'] at this
      rw [this]
      simp
    · rw [hasKey_of_mem_keys h1]
      simp
  · rw [List.any_eq_false]
    intro p hp
    rw [lookupD_applyLabels_mem desired _ hnd p hp]
    simp

/-- A list is a Boolean prefix of itself followed by anything. -/
lemma isPrefixOf_append_self (l t : List Char) :
    l.isPrefixOf (l ++ t) = true := by
  induction l with
  | nil => cases t <;> rfl
  | cons a as ih => simp [List.isPrefixOf, ih]

/-- Appending to the namespace yields a namespaced key. -/
lemma goHasPref_ns_append (x : String) :
    goHasPref (labelNS ++ x) labelNS = true := by
  unfold goHasPref
  rw [String.data_append]
  exact isPrefixOf_append_self _ _

/-- Chassis keys are namespaced. -/
lemma goHasPref_mkChassisKey (i : Nat) :
    goHasPref (mkChassisKey i) labelNS = true := by
  unfold mkChassisKey goHasPref
  simp only [String.data_append, List.append_assoc]
  exact isPrefixOf_append_self _ _

/-- Chassis-less GPU keys are namespaced. -/
lemma goHasPref_mkGpuKey (j : Nat) :
    goHasPref (mkGpuKey j) labelNS = true := by
  unfold mkGpuKey goHasPref
  simp only [String.data_append, List.append_assoc]
  exact isPrefixOf_append_self _ _

/-- Chassis-indexed GPU keys are namespaced. -/
lemma goHasPref_mkChassisGpuKey (i j : Nat) :
    goHasPref (mkChassisGpuKey i j) labelNS = true := by
  unfold mkChassisGpuKey goHasPref
  simp only [String.data_append, List.append_assoc]
  exact isPrefixOf_append_self _ _

/-- The chassis-count key is namespaced. -/
lemma goHasPref_chassisCountKey :
    goHasPref chassisCountKey labelNS = true := by
  unfold chassisCountKey goHasPref
  simp only [String.data_append, List.append_assoc]
  exact isPrefixOf_append_self _ _

/-- Keys produced by the GPU label loop extend the accumulator only
with namespaced keys. -/
lemma keys_gpuLabelLoop {i : Nat} {cs : String} :
    ∀ (j : Nat) (gs : List String) (acc : Labels) {k : String},
      k ∈ (gpuLabelLoop i cs j gs acc).map Prod.fst →
      k ∈ acc.map Prod.fst ∨ goHasPref k labelNS = true
  | _, [], _, _, h => Or.inl h
  | j, g :: rest, acc, k, h => by
    unfold gpuLabelLoop at h
    by_cases hg : g = ""
    · rw [if_pos hg] at h
      exact keys_gpuLabelLoop (j + 1) rest acc h
    · rw [if_neg hg] at h
      rcases keys_gpuLabelLoop (j + 1) rest _ h with h1 | h1
      · rcases keys_setL h1 with h2 | h2
        · subst h2
          by_cases hcs : cs = notSetDefault
          · rw [if_pos hcs]
            exact Or.inr (goHasPref_mkGpuKey j)
          · rw [if_neg hcs]
            exact Or.inr (goHasPref_mkChassisGpuKey i j)
        · exact Or.inl h2
      · exact Or.inr h1

/-- Keys produced by the chassis loop extend the accumulator only with
namespaced keys. -/
lemma keys_chassisLoop :
    ∀ (groups : List (Option Serials)) (i count : Nat) (acc : Labels)
      {k : String},
      k ∈ (chassisLoop i count groups acc).1.map Prod.fst →
      k ∈ acc.map Prod.fst ∨ goHasPref k labelNS = true
  | [], _, _, _, _, h => Or.inl h
  | none :: rest, i, count, acc, k, h => keys_chassisLoop rest _ _ acc h
  | some s :: rest, i, count, acc, k, h => by
    unfold chassisLoop at h
    rcases keys_chassisLoop rest _ _ _ h with h1 | h1
    · rcases keys_gpuLabelLoop 0 (sortStrings s.gpu) _ h1 with h2 | h2
      · by_cases hcs : sanitizeLabelValue s.chassis = notSetDefault
        · rw [if_pos hcs] at h2
          exact Or.inl h2
        · rw [if_neg hcs] at h2
          rcases keys_setL h2 with h3 | h3
          · subst h3
            exact Or.inr (goHasPref_mkChassisKey i)
          · exact Or.inl h3
      · exact Or.inr h2
    · exact Or.inr h1

/-- Every key of the desired label set carries the `labelNS`
namespace. -/
lemma keys_calculateGPULabels_ns {serials : List (Option Serials)}
    {k : String} (h : k ∈ (calculateGPULabels serials).map Prod.fst) :
    goHasPref k labelNS = true := by
  unfold calculateGPULabels at h
  by_cases he : serials.isEmpty
  · rw [if_pos he] at h
    simp at h
  · rw [if_neg he] at h
    rcases keys_setL h with h1 | h1
    · subst h1
      exact goHasPref_chassisCountKey
    · rcases keys_chassisLoop _ 0 0 [] h1 with h2 | h2
      · simp at h2
      · exact h2

/-- The GPU label loop keeps key sets duplicate-free. -/
lemma nodupKeys_gpuLabelLoop {i : Nat} {cs : String} :
    ∀ (j : Nat) (gs : List String) (acc : Labels), NodupKeys acc →
      NodupKeys (gpuLabelLoop i cs j gs acc)
  | _, [], _, h => h
  | j, g :: rest, acc, h => by
    unfold gpuLabelLoop
    by_cases hg : g = ""
    · rw [if_pos hg]
      exact nodupKeys_gpuLabelLoop (j + 1) rest acc h
    · rw [if_neg hg]
      exact nodupKeys_gpuLabelLoop (j + 1) rest _ (nodupKeys_setL _ _ h)

/-- The chassis loop keeps key sets duplicate-free. -/
lemma nodupKeys_chassisLoop :
    ∀ (groups : List (Option Serials)) (i count : Nat) (acc : Labels),
      NodupKeys acc → NodupKeys (chassisLoop i count groups acc).1
  | [], _, _, _, h => h
  | none :: rest, i, count, acc, h => nodupKeys_chassisLoop rest _ _ acc h
  | some s :: rest, i, count, acc, h => by
    unfold chassisLoop
    refine nodupKeys_chassisLoop rest _ _ _ ?_
    refine nodupKeys_gpuLabelLoop 0 (sortStrings s.gpu) _ ?_
    by_cases hcs : sanitizeLabelValue s.chassis = notSetDefault
    · rw [if_pos hcs]
      exact h
    · rw [if_neg hcs]
      exact nodupKeys_setL _ _ h

/-- The desired label set has duplicate-free keys. -/
lemma nodupKeys_calculateGPULabels (serials : List (Option Serials)) :
    NodupKeys (calculateGPULabels serials) := by
  unfold calculateGPULabels
  by_cases he : serials.isEmpty
  · rw [if_pos he]
    simp [NodupKeys]
  · rw [if_neg he]
    refine nodupKeys_setL _ _ ?_
    exact nodupKeys_chassisLoop _ 0 0 [] (by simp [NodupKeys])

/-- Claim C5: `EnsureLabels` preserves every node label outside the
controller's namespace — an `attemptLabelUpdate` with the desired set
computed by `calculateGPULabels` leaves the value of every
non-namespaced key unchanged, because the update writes
`(current minus namespaced keys) union desired` and every desired key
is namespaced. -/
theorem ensure_labels_frame (serials : List (Option Serials))
    (current : Labels) (k : String) (h : goHasPref k labelNS = false) :
    lookupD (attemptLabelUpdate current (calculateGPULabels serials)).labels k
      = lookupD current k := by
  unfold attemptLabelUpdate
  by_cases hn : needsLabelUpdate current (calculateGPULabels serials) = false
  · rw [if_pos hn]
  · rw [if_neg hn]
    show lookupD
      (applyLabels (clearLabels current) (calculateGPULabels serials)) k
      = lookupD current k
    rw [lookupD_applyLabels_of_not_mem _ _ fun p hp he => by
      have hns := keys_calculateGPULabels_ns (List.mem_map_of_mem Prod.fst hp)
      rw [he] at hns
      simp [h] at hns]
    exact lookupD_clearLabels h

/-- Witness for `ensure_labels_frame`: a non-namespaced label survives
an update that writes the desired set for one chassis group. -/
theorem ensure_labels_frame_witness :
    lookupD (attemptLabelUpdate [("team", "a")]
      (calculateGPULabels [some ⟨"C0", ["g1"]⟩])).labels "team" = "a" :=
  (ensure_labels_frame [some ⟨"C0", ["g1"]⟩] [("team", "a")] "team"
    (by decide)).trans (by decide)

/-- Claim C3: `EnsureLabels` is idempotent with respect to node
writes.  If the current labels already carry every desired pair and no
namespaced key outside the desired set, the attempt succeeds without
calling `UpdateNode`; and when an update is needed, the first attempt
writes and the attempt on the written labels does not, so two
successive `ensure` calls issue exactly one node update. -/
theorem ensure_labels_idempotent (serials : List (Option Serials))
    (current : Labels) :
    ((∀ p ∈ calculateGPULabels serials, lookupD current p.1 = p.2) ∧
        (∀ p ∈ current, goHasPref p.1 labelNS = true →
          hasKey (calculateGPULabels serials) p.1 = true) →
      (attemptLabelUpdate current (calculateGPULabels serials)).updated
        = false) ∧
      (needsLabelUpdate current (calculateGPULabels serials) = true →
        (attemptLabelUpdate current (calculateGPULabels serials)).updated
            = true ∧
          (attemptLabelUpdate
              (attemptLabelUpdate current (calculateGPULabels serials)).labels
              (calculateGPULabels serials)).updated = false) := by
  constructor
  · rintro ⟨h1, h2⟩
    have hn : needsLabelUpdate current (calculateGPULabels serials) = false := by
      unfold needsLabelUpdate
      rw [Bool.or_eq_false_iff]
      constructor
      · rw [List.any_eq_false]
        intro p hp
        by_cases hpref : goHasPref p.1 labelNS = true
        · rw [hpref, h2 p hp hpref]
          simp
        · rw [Bool.not_eq_true] at hpref
          rw [hpref]
          simp
      · rw [List.any_eq_false]
        intro p hp
        rw [h1 p hp]
        simp
    unfold attemptLabelUpdate
    rw [if_pos hn]
  · intro hn
    have happ : attemptLabelUpdate current (calculateGPULabels serials)
        = ⟨true, applyLabels (clearLabels current)
            (calculateGPULabels serials)⟩ := by
      unfold attemptLabelUpdate
      rw [if_neg (by simp [hn])]
    rw [happ]
    refine ⟨rfl, ?_⟩
    show (attemptLabelUpdate
      (applyLabels (clearLabels current) (calculateGPULabels serials))
      (calculateGPULabels serials)).updated = false
    unfold attemptLabelUpdate
    rw [if_pos (needsLabelUpdate_after current _
      (nodupKeys_calculateGPULabels serials))]

/-- Witness for `ensure_labels_idempotent`: starting from an unlabeled
node, the first attempt writes and the second does not. -/
theorem ensure_labels_idempotent_witness :
    (attemptLabelUpdate []
          (calculateGPULabels [some ⟨"C0", ["g1"]⟩])).updated = true ∧
      (attemptLabelUpdate
          (attemptLabelUpdate []
            (calculateGPULabels [some ⟨"C0", ["g1"]⟩])).labels
          (calculateGPULabels [some ⟨"C0", ["g1"]⟩])).updated = false :=
  (ensure_labels_idempotent [some ⟨"C0", ["g1"]⟩] []).2 (by decide)

/-- Conversion from the sort order to the stated ordering: a sorted
pair has no nil before a non-nil entry, and non-nil entries ascend by
chassis serial. -/
lemma leSerialsP_spec {a b : Option Serials} (h : leSerialsP a b) :
    (a = none → b = none) ∧
      ∀ x y, a = some x → b = some y → goStringLE x.chassis y.chassis := by
  unfold leSerialsP leSerials at h
  rw [Bool.not_eq_true'] at h
  constructor
  · intro ha
    subst ha
    cases b with
    | none => rfl
    | some y => simp [lessSerials] at h
  · intro x y hx hy
    subst hx; subst hy
    simp only [lessSerials, goStringLt, decide_eq_false_iff_not, not_lt] at h
    exact h

/-- Claim C8, counterexample: sorting places an empty (unknown)
chassis serial ahead of a known one — the group whose sanitized
chassis is the sentinel gets index 0, below the known group at index 1
— because only nil entries are sent to the back while the empty string
is the smallest serial. -/
theorem sort_serials_counterexample :
    sortSerials [some ⟨"C0", ["g"]⟩, some ⟨"", ["g"]⟩]
        = [some ⟨"", ["g"]⟩, some ⟨"C0", ["g"]⟩] ∧
      sanitizeLabelValue "" = notSetDefault := by
  exact ⟨by decide, by decide⟩

/-- Claim C8, amended: the sort of `calculateGPULabels` permutes the
groups so that nil entries come last and non-nil groups ascend by
their raw chassis serial; empty-chassis (unknown) groups therefore
sort first, not last. -/
theorem sort_serials_spec (serials : List (Option Serials)) :
    (sortSerials serials).Perm serials ∧
      List.Pairwise
        (fun a b => (a = none → b = none) ∧
          ∀ x y, a = some x → b = some y → goStringLE x.chassis y.chassis)
        (sortSerials serials) := by
  constructor
  · exact List.perm_insertionSort leSerialsP serials
  · exact (List.sorted_insertionSort leSerialsP serials).imp
      fun h => leSerialsP_spec h

/-- The key just written is present. -/
lemma hasKey_setL_self (m : Labels) (k v : String) :
    hasKey (setL m k v) k = true := by
  induction m with
  | nil => simp [setL, hasKey, List.find?]
  | cons a t ih =>
    unfold setL
    by_cases ha : (a.1 == k) = true
    · rw [if_pos ha]
      simp [hasKey, List.find?_cons]
    · rw [if_neg ha]
      unfold hasKey at *
      rw [List.find?_cons]
      rw [Bool.not_eq_true] at ha
      rw [ha]
      exact ih

/-- Map assignment never removes a key. -/
lemma hasKey_setL_mono {m : Labels} {k' : String} (k v : String)
    (h : hasKey m k' = true) : hasKey (setL m k v) k' = true := by
  induction m with
  | nil => simp [hasKey, List.find?] at h
  | cons a t ih =>
    unfold setL
    by_cases ha : (a.1 == k) = true
    · rw [if_pos ha]
      unfold hasKey at h ⊢
      rw [List.find?_cons] at h ⊢
      have ha1 : a.1 = k := by simpa using ha
      cases hk : (a.1 == k')
      · rw [hk] at h
        cases hkk : (k == k')
        · exact h
        · simp
      · have : (k == k') = true := by
          rw [← ha1]
          exact hk
        rw [this]
        simp
    · rw [if_neg ha]
      unfold hasKey at h ⊢
      rw [List.find?_cons] at h ⊢
      cases hk : (a.1 == k')
      · rw [hk] at h
        exact ih h
      · simp

/-- The GPU label loop never removes a key. -/
lemma hasKey_gpuLabelLoop_mono {i : Nat} {cs k : String} :
    ∀ (gs : List String) (j : Nat) (acc : Labels),
      hasKey acc k = true → hasKey (gpuLabelLoop i cs j gs acc) k = true
  | [], _, _, h => h
  | g :: rest, j, acc, h => by
    unfold gpuLabelLoop
    by_cases hg : g = ""
    · rw [if_pos hg]
      exact hasKey_gpuLabelLoop_mono rest (j + 1) acc h
    · rw [if_neg hg]
      exact hasKey_gpuLabelLoop_mono rest (j + 1) _ (hasKey_setL_mono _ _ h)

/-- In the sentinel (unknown-chassis) case, the GPU label loop emits
the key `NS/gpu-<j>` for every nonempty serial at offset `idx` of the
remaining list. -/
lemma gpuLabelLoop_hasKey_sentinel {i : Nat} :
    ∀ (gs : List String) (j : Nat) (acc : Labels) (idx : Nat),
      gs.getD idx "" ≠ "" →
      hasKey (gpuLabelLoop i notSetDefault j gs acc) (mkGpuKey (j + idx))
        = true
  | [], _, _, idx, h => by
    simp [List.getD] at h
  | g :: rest, j, acc, 0, h => by
    have hg : g ≠ "" := by simpa using h
    unfold gpuLabelLoop
    rw [if_neg hg, if_pos rfl, Nat.add_zero]
    exact hasKey_gpuLabelLoop_mono rest (j + 1) _ (hasKey_setL_self _ _ _)
  | g :: rest, j, acc, idx + 1, h => by
    have h2 : rest.getD idx "" ≠ "" := by simpa using h
    unfold gpuLabelLoop
    by_cases hg : g = ""
    · rw [if_pos hg, show j + (idx + 1) = (j + 1) + idx from by omega]
      exact gpuLabelLoop_hasKey_sentinel rest (j + 1) acc idx h2
    · rw [if_neg hg, if_pos rfl,
        show j + (idx + 1) = (j + 1) + idx from by omega]
      exact gpuLabelLoop_hasKey_sentinel rest (j + 1) _ idx h2

/-- In the sentinel case, every key the GPU label loop adds has the
form `NS/gpu-<j>`. -/
lemma keys_gpuLabelLoop_sentinel {i : Nat} :
    ∀ (gs : List String) (j : Nat) (acc : Labels) {k : String},
      k ∈ (gpuLabelLoop i notSetDefault j gs acc).map Prod.fst →
      k ∈ acc.map Prod.fst ∨ ∃ j2, k = mkGpuKey j2
  | [], _, _, _, h => Or.inl h
  | g :: rest, j, acc, k, h => by
    unfold gpuLabelLoop at h
    by_cases hg : g = ""
    · rw [if_pos hg] at h
      exact keys_gpuLabelLoop_sentinel rest (j + 1) acc h
    · rw [if_neg hg, if_pos rfl] at h
      rcases keys_gpuLabelLoop_sentinel rest (j + 1) _ h with h1 | h1
      · rcases keys_setL h1 with h2 | h2
        · exact Or.inr ⟨j, h2⟩
        · exact Or.inl h2
      · exact Or.inr h1

/-- The desired label set of a single unknown-chassis group unfolds to
the GPU label loop in sentinel mode plus the chassis count. -/
lemma calculateGPULabels_unknown (gs : List String) :
    calculateGPULabels [some ⟨"", gs⟩]
      = setL (gpuLabelLoop 0 notSetDefault 0 (sortStrings gs) [])
          chassisCountKey (toString 1) := rfl

/-- Claim C7, counterexample: for a single group with an empty chassis
serial and one GPU, `Exporter.Export` builds no records at all — the
group is skipped with a warning — so the sink receives zero records
instead of the claimed one record per GPU. -/
theorem export_unknown_chassis_counterexample :
    buildRecords "c" "n" "m" "ns" "p" 5 [some ⟨"", ["g1"]⟩] = [] ∧
      (⟨"", ["g1"]⟩ : Serials).gpu.length = 1 := by
  exact ⟨rfl, rfl⟩

/-- Claim C7, amended: with an empty chassis serial the sanitized
chassis is the sentinel and the node labels for the single collapsed
group are emitted as `NS/gpu-<j>` (plus the chassis count, and with no
chassis-prefixed key); but the sink receives no records for such
groups — `Exporter.Export` skips every empty-chassis group. -/
theorem unknown_chassis_labels_and_export (gs : List String)
    (cluster nodeName machine ns podName : String) (now : Nat)
    (serials : List (Option Serials))
    (hall : ∀ s : Serials, some s ∈ serials → s.chassis = "") :
    sanitizeLabelValue "" = notSetDefault ∧
      (∀ k ∈ (calculateGPULabels [some ⟨"", gs⟩]).map Prod.fst,
        k = chassisCountKey ∨ ∃ j, k = mkGpuKey j) ∧
      (∀ idx : Nat, (sortStrings gs).getD idx "" ≠ "" →
        hasKey (calculateGPULabels [some ⟨"", gs⟩]) (mkGpuKey idx) = true) ∧
      buildRecords cluster nodeName machine ns podName now serials = [] := by
  refine ⟨rfl, ?_, ?_, ?_⟩
  · intro k hk
    rw [calculateGPULabels_unknown] at hk
    rcases keys_setL hk with h1 | h1
    · exact Or.inl h1
    · rcases keys_gpuLabelLoop_sentinel (sortStrings gs) 0 [] h1 with h2 | h2
      · simp at h2
      · exact Or.inr h2
  · intro idx hidx
    rw [calculateGPULabels_unknown]
    refine hasKey_setL_mono _ _ ?_
    have := gpuLabelLoop_hasKey_sentinel (i := 0) (sortStrings gs) 0 [] idx hidx
    rwa [Nat.zero_add] at this
  · induction serials with
    | nil => rfl
    | cons cn rest ih =>
      have ihr := ih fun s hs => hall s (List.mem_cons_of_mem _ hs)
      cases cn with
      | none => exact ihr
      | some s =>
        have hs : s.chassis = "" := hall s (List.mem_cons_self _ _)
        show (if s.chassis = "" then
          buildRecords cluster nodeName machine ns podName now rest
          else _) = []
        rw [if_pos hs]
        exact ihr

/-- Witness for `unknown_chassis_labels_and_export` on one
unknown-chassis group with one GPU. -/
theorem unknown_chassis_witness :
    sanitizeLabelValue "" = notSetDefault ∧
      (∀ k ∈ (calculateGPULabels [some ⟨"", ["g1"]⟩]).map Prod.fst,
        k = chassisCountKey ∨ ∃ j, k = mkGpuKey j) ∧
      (∀ idx : Nat, (sortStrings ["g1"]).getD idx "" ≠ "" →
        hasKey (calculateGPULabels [some ⟨"", ["g1"]⟩]) (mkGpuKey idx)
          = true) ∧
      buildRecords "c" "n" "m" "ns" "p" 5 [some ⟨"", ["g1"]⟩] = [] :=
  unknown_chassis_labels_and_export ["g1"] "c" "n" "m" "ns" "p" 5
    [some ⟨"", ["g1"]⟩] fun s hs => by
      rw [List.mem_singleton] at hs
      cases Option.some.inj hs
      rfl

/-- Records surviving the per-chassis loop of `Exporter.Export` passed
`Validate`. -/
lemma mem_buildGPURecords_validate {cluster nodeName machine source : String}
    {now : Nat} {chassis : String} :
    ∀ (gs : List String) {r : SerialNumberReading},
      r ∈ buildGPURecords cluster nodeName machine source now chassis gs →
      r.validate = none
  | [], _, h => absurd h (List.not_mem_nil _)
  | sn :: rest, r, h => by
    unfold buildGPURecords at h
    cases hv : SerialNumberReading.validate
        ⟨cluster, nodeName, machine, source, chassis, sn, now⟩ with
    | some msg =>
      rw [hv] at h
      exact mem_buildGPURecords_validate rest h
    | none =>
      rw [hv] at h
      rcases List.mem_cons.mp h with h1 | h1
      · rw [h1]
        exact hv
      · exact mem_buildGPURecords_validate rest h1

/-- Claim C4: every record handed to a sink backend's `Write` by
`Exporter.Export` satisfies the validity invariant (`Validate` returns
nil), and a record failing validation is dropped without failing the
batch or the `Export` call: with non-blank cluster and node identifier
and a backend that accepts the batch, `Export` succeeds. -/
theorem export_record_validity (cluster nodeName machine ns podName : String)
    (now : Nat) (serials : List (Option Serials)) :
    (∀ r ∈ buildRecords cluster nodeName machine ns podName now serials,
        r.validate = none) ∧
      ∀ w : List SerialNumberReading → Except String Unit,
        goTrim cluster ≠ "" → goTrim machine ≠ "" →
        w (buildRecords cluster nodeName machine ns podName now serials)
            = .ok () →
        exportCore w cluster nodeName machine ns podName now serials
          = .ok () := by
  constructor
  · induction serials with
    | nil => intro r h; exact absurd h (List.not_mem_nil _)
    | cons cn rest ih =>
      intro r h
      cases cn with
      | none => exact ih r h
      | some s =>
        unfold buildRecords at h
        by_cases hc : s.chassis = ""
        · rw [if_pos hc] at h
          exact ih r h
        · rw [if_neg hc] at h
          rcases List.mem_append.mp h with h1 | h1
          · exact mem_buildGPURecords_validate s.gpu h1
          · exact ih r h1
  · intro w h1 h2 h3
    unfold exportCore
    by_cases he : serials.isEmpty
    · rw [if_pos he]
    · rw [if_neg he, if_neg h1, if_neg h2]
      by_cases hr :
          (buildRecords cluster nodeName machine ns podName now
            serials).isEmpty
      · rw [if_pos hr]
      · rw [if_neg hr, h3]

/-- Witness for `export_record_validity` with an always-accepting
backend. -/
theorem export_record_validity_witness :
    exportCore (fun _ => .ok ()) "c" "n" "m" "ns" "p" 5
      [some ⟨"ch", ["g1"]⟩] = .ok () :=
  (export_record_validity "c" "n" "m" "ns" "p" 5 [some ⟨"ch", ["g1"]⟩]).2
    (fun _ => .ok ()) (by decide) (by decide) rfl

/-- The attempt counter of `runBackoff` moves forward and makes at
most `n` attempts. -/
lemma runBackoff_count (cond : Nat → Bool × Option KErr) :
    ∀ (n i : Nat),
      i ≤ (runBackoff cond n i).2 ∧ (runBackoff cond n i).2 ≤ i + n
  | 0, i => ⟨Nat.le_refl i, Nat.le_add_right i 0⟩
  | n + 1, i => by
    rcases hc : cond i with ⟨b, oe⟩
    cases oe with
    | some e =>
      have hr : (runBackoff cond (n + 1) i).2 = i + 1 := by
        unfold runBackoff
        rw [hc]
        cases b <;> rfl
      rw [hr]
      exact ⟨by omega, by omega⟩
    | none =>
      cases b with
      | true =>
        have hr : (runBackoff cond (n + 1) i).2 = i + 1 := by
          unfold runBackoff
          rw [hc]
        rw [hr]
        exact ⟨by omega, by omega⟩
      | false =>
        have hr : runBackoff cond (n + 1) i = runBackoff cond n (i + 1) := by
          conv_lhs => unfold runBackoff
          rw [hc]
        rw [hr]
        have ih := runBackoff_count cond n (i + 1)
        exact ⟨by omega, by omega⟩

/-- Characterization of `runBackoff`: every attempt before the last
returned the retryable `(false, nil)`, and an attempt yielding an
error ends the loop at once with that error. -/
lemma runBackoff_spec (cond : Nat → Bool × Option KErr) :
    ∀ (n i : Nat),
      (∀ k, i ≤ k → k + 1 < (runBackoff cond n i).2 →
        cond k = (false, none)) ∧
      (∀ k e, i ≤ k → k < (runBackoff cond n i).2 → (cond k).2 = some e →
        (runBackoff cond n i).2 = k + 1 ∧
          (runBackoff cond n i).1 = .failed e)
  | 0, i => by
    constructor
    · intro k hik hk
      simp only [runBackoff] at hk
      omega
    · intro k e hik hk _
      simp only [runBackoff] at hk
      omega
  | n + 1, i => by
    rcases hc : cond i with ⟨b, oe⟩
    cases oe with
    | some e0 =>
      have hr2 : (runBackoff cond (n + 1) i).2 = i + 1 := by
        unfold runBackoff
        rw [hc]
        cases b <;> rfl
      have hr1 : (runBackoff cond (n + 1) i).1 = .failed e0 := by
        unfold runBackoff
        rw [hc]
        cases b <;> rfl
      constructor
      · intro k hik hk
        rw [hr2] at hk
        omega
      · intro k e hik hk hce
        rw [hr2] at hk
        have hki : k = i := by omega
        subst hki
        rw [hc] at hce
        simp only at hce
        cases hce
        exact ⟨hr2, hr1⟩
    | none =>
      cases b with
      | true =>
        have hr2 : (runBackoff cond (n + 1) i).2 = i + 1 := by
          unfold runBackoff
          rw [hc]
        constructor
        · intro k hik hk
          rw [hr2] at hk
          omega
        · intro k e hik hk hce
          rw [hr2] at hk
          have hki : k = i := by omega
          subst hki
          rw [hc] at hce
          simp at hce
      | false =>
        have hr : runBackoff cond (n + 1) i = runBackoff cond n (i + 1) := by
          conv_lhs => unfold runBackoff
          rw [hc]
        rw [hr]
        have ih := runBackoff_spec cond n (i + 1)
        constructor
        · intro k hik hk
          by_cases hki : k = i
          · subst hki
            exact hc
          · exact ih.1 k (by omega) hk
        · intro k e hik hk hce
          by_cases hki : k = i
          · subst hki
            rw [hc] at hce
            simp at hce
          · exact ih.2 k e (by omega) hk hce

/-- The condition of `EnsureLabels` returns the retryable
`(false, nil)` exactly for non-Forbidden, non-Invalid failures. -/
lemma ensureCondition_retry (r : Except KErr Bool) :
    ensureCondition r = (false, none) ↔
      r = .error .conflict ∨ r = .error .other ∨ r = .ok false := by
  cases r with
  | error e => cases e <;> simp [ensureCondition]
  | ok b => cases b <;> simp [ensureCondition]

/-- Claim C10: `EnsureLabels` makes at most 5 attempts; every
non-final attempt was a retryable failure (conflict-like error or an
unsuccessful condition), so a Forbidden or Invalid error is never
followed by another attempt — it ends the loop immediately and is
surfaced — and the backoff parameters are initial 2s, factor 2.0,
jitter 10%, cap 45s, 5 steps. -/
theorem ensure_labels_retry_policy (att : Nat → Except KErr Bool) :
    (ensureLabelsRun att).2 ≤ maxRetries ∧
      (∀ k, k + 1 < (ensureLabelsRun att).2 →
        att k = .error .conflict ∨ att k = .error .other ∨
          att k = .ok false) ∧
      (∀ k, k < (ensureLabelsRun att).2 → att k = .error .forbidden →
        (ensureLabelsRun att).2 = k + 1 ∧
          (ensureLabelsRun att).1 = .failed .forbidden) ∧
      (∀ k, k < (ensureLabelsRun att).2 → att k = .error .invalid →
        (ensureLabelsRun att).2 = k + 1 ∧
          (ensureLabelsRun att).1 = .failed .invalid) ∧
      ensureBackoff = ⟨2 * second, 2, 1/10, 5, 45 * second⟩ := by
  unfold ensureLabelsRun
  have hcount :=
    runBackoff_count (fun i => ensureCondition (att i)) ensureBackoff.steps 0
  have hspec :=
    runBackoff_spec (fun i => ensureCondition (att i)) ensureBackoff.steps 0
  refine ⟨?_, ?_, ?_, ?_, rfl⟩
  · have h2 := hcount.2
    have hs : ensureBackoff.steps = maxRetries := rfl
    omega
  · intro k hk
    exact (ensureCondition_retry (att k)).mp (hspec.1 k (Nat.zero_le k) hk)
  · intro k hk hf
    refine hspec.2 k .forbidden (Nat.zero_le k) hk ?_
    show (ensureCondition (att k)).2 = some .forbidden
    rw [hf]
    rfl
  · intro k hk hf
    refine hspec.2 k .invalid (Nat.zero_le k) hk ?_
    show (ensureCondition (att k)).2 = some .invalid
    rw [hf]
    rfl

/-- Witness for `ensure_labels_retry_policy`: a conflict is retried,
the Forbidden error on the second attempt stops the loop at two
attempts and surfaces. -/
theorem ensure_labels_retry_policy_witness :
    (ensureLabelsRun fun i => if i = 0 then Except.error KErr.conflict
          else Except.error KErr.forbidden).2 = 1 + 1 ∧
      (ensureLabelsRun fun i => if i = 0 then Except.error KErr.conflict
          else Except.error KErr.forbidden).1
        = BackoffResult.failed KErr.forbidden :=
  (ensure_labels_retry_policy fun i => if i = 0 then
      Except.error KErr.conflict
    else Except.error KErr.forbidden).2.2.1 1 (by decide) rfl

/-- Keys of a filtered association list are keys of the original. -/
lemma keys_filter_subset {α : Type} {s : List (String × α)}
    {q : String × α → Bool} {x : String}
    (h : x ∈ (s.filter q).map Prod.fst) : x ∈ s.map Prod.fst := by
  obtain ⟨p, hp, hx⟩ := List.mem_map.mp h
  exact hx ▸ List.mem_map_of_mem _ (List.mem_filter.mp hp).1

/-- Absent keys look up to nothing. -/
lemma lookupUID_eq_none_of_not_mem {s : UIDSet} {uid : String}
    (h : uid ∉ s.map Prod.fst) : lookupUID s uid = none := by
  unfold lookupUID
  rw [List.find?_eq_none.mpr]
  · rfl
  · intro p hp hpe
    exact h (by
      have : p.1 = uid := by simpa using hpe
      exact this ▸ List.mem_map_of_mem _ hp)

/-- The sweep of `uidSet.Has` keeps exactly the unexpired entry of a
key (key sets being duplicate-free). -/
lemma lookupUID_expire (now : Nat) {s : UIDSet} (hnd : NodupKeys s)
    (uid : String) :
    lookupUID (expireUIDs now s) uid
      = match lookupUID s uid with
        | none => none
        | some t => if now - t ≤ cacheTTL then some t else none := by
  induction s with
  | nil => rfl
  | cons a t ih =>
    unfold NodupKeys at hnd
    rw [List.map_cons, List.nodup_cons] at hnd
    obtain ⟨hna, hnt⟩ := hnd
    unfold expireUIDs at *
    rw [List.filter_cons]
    by_cases hk : (a.1 == uid) = true
    · have ha1 : a.1 = uid := by simpa using hk
      have hl : lookupUID (a :: t) uid = some a.2 := by
        unfold lookupUID
        rw [List.find?_cons, hk]
        rfl
      rw [hl]
      show _ = if now - a.2 ≤ cacheTTL then some a.2 else none
      by_cases hkeep : (now - a.2 ≤ cacheTTL)
      · rw [if_pos (by simpa using hkeep), if_pos hkeep]
        unfold lookupUID
        rw [List.find?_cons, hk]
        rfl
      · rw [if_neg (by simpa using hkeep), if_neg hkeep]
        exact lookupUID_eq_none_of_not_mem
          fun hmem => hna (ha1 ▸ keys_filter_subset hmem)
    · have hl : lookupUID (a :: t) uid = lookupUID t uid := by
        unfold lookupUID
        rw [List.find?_cons]
        rw [Bool.not_eq_true] at hk
        rw [hk]
      rw [hl, ← ih hnt]
      by_cases hkeep : ((now - a.2 ≤ cacheTTL : Prop))
      · rw [if_pos (by simpa using hkeep)]
        unfold lookupUID
        rw [List.find?_cons]
        rw [Bool.not_eq_true] at hk
        rw [hk]
      · rw [if_neg (by simpa using hkeep)]

/-- `uidSet.Add` stamps the key with the given time. -/
lemma lookupUID_add_self (now : Nat) (uid : String) (s : UIDSet) :
    lookupUID (addUID now uid s) uid = some now := by
  unfold lookupUID addUID
  rw [List.find?_cons]
  simp

/-- `uidSet.Add` of one key leaves the lookup of another unchanged. -/
lemma lookupUID_add_ne {u uid : String} (h : u ≠ uid) (now : Nat)
    (s : UIDSet) :
    lookupUID (addUID now u s) uid = lookupUID s uid := by
  unfold lookupUID addUID
  rw [List.find?_cons]
  have hne : (u == uid) = false := by simpa using h
  rw [hne]
  rw [find?_filter_of_imp]
  intro x hx
  have hxu : x.1 = uid := by simpa using hx
  simp [hxu]
  exact fun he => h he.symm

/-- The sweep keeps key sets duplicate-free. -/
lemma nodupKeys_expire (now : Nat) {s : UIDSet} (h : NodupKeys s) :
    NodupKeys (expireUIDs now s) := by
  unfold NodupKeys expireUIDs at *
  exact h.sublist ((List.filter_sublist s).map Prod.fst)

/-- `uidSet.Add` keeps key sets duplicate-free. -/
lemma nodupKeys_add (now : Nat) (uid : String) {s : UIDSet}
    (h : NodupKeys s) : NodupKeys (addUID now uid s) := by
  unfold NodupKeys addUID at *
  rw [List.map_cons, List.nodup_cons]
  constructor
  · intro hmem
    obtain ⟨p, hp, hx⟩ := List.mem_map.mp hmem
    have := (List.mem_filter.mp hp).2
    rw [hx] at this
    simp at this
  · exact h.sublist ((List.filter_sublist s).map Prod.fst)

/-- A pod that is not ready is skipped without touching the set. -/
lemma step_not_ready {s : UIDSet} {e : PodEvent} (h : e.ready = false) :
    stepProcessPod s e = (s, false, false) := by
  unfold stepProcessPod
  rw [if_pos h]

/-- A pod whose UID is already in the (swept) set is skipped. -/
lemma step_has {s : UIDSet} {e : PodEvent} (h1 : e.ready = true)
    (h2 : hasUID (expireUIDs e.time s) e.uid = true) :
    stepProcessPod s e = (expireUIDs e.time s, false, false) := by
  unfold stepProcessPod
  rw [if_neg (by rw [h1]; exact fun hc => nomatch hc), if_pos h2]

/-- Cancellation during the jitter sleep skips the pipeline without
consuming a dedup slot. -/
lemma step_canceled {s : UIDSet} {e : PodEvent} (h1 : e.ready = true)
    (h2 : hasUID (expireUIDs e.time s) e.uid = false)
    (h3 : e.canceled = true) :
    stepProcessPod s e = (expireUIDs e.time s, false, false) := by
  unfold stepProcessPod
  rw [if_neg (by rw [h1]; exact fun hc => nomatch hc),
    if_neg (by rw [h2]; exact fun hc => nomatch hc), if_pos h3]

/-- A ready, unseen, uncancelled pod is marked in the set and the
pipeline runs. -/
lemma step_exec {s : UIDSet} {e : PodEvent} (h1 : e.ready = true)
    (h2 : hasUID (expireUIDs e.time s) e.uid = false)
    (h3 : e.canceled = false) :
    stepProcessPod s e
      = (addUID e.time e.uid (expireUIDs e.time s), true,
          sinkTouched e.outcome) := by
  unfold stepProcessPod
  rw [if_neg (by rw [h1]; exact fun hc => nomatch hc),
    if_neg (by rw [h2]; exact fun hc => nomatch hc),
    if_neg (by rw [h3]; exact fun hc => nomatch hc)]

/-- `processPod` keeps the dedup key set duplicate-free. -/
lemma step_nodup {s : UIDSet} (e : PodEvent) (h : NodupKeys s) :
    NodupKeys (stepProcessPod s e).1 := by
  unfold stepProcessPod
  split_ifs
  · exact h
  · exact nodupKeys_expire _ h
  · exact nodupKeys_expire _ h
  · exact nodupKeys_add _ _ (nodupKeys_expire _ h)

/-- The sink is reached only when the pipeline ran. -/
lemma step_sink_imp_exec (s : UIDSet) (e : PodEvent) :
    (stepProcessPod s e).2.2 = true → (stepProcessPod s e).2.1 = true := by
  unfold stepProcessPod
  split_ifs <;> intro h
  · exact h
  · exact h
  · exact h
  · rfl

/-- After a run that reached the pipeline, the UID is in the dedup
set — regardless of the pipeline's outcome. -/
lemma step_exec_consumes (s : UIDSet) (e : PodEvent) :
    (stepProcessPod s e).2.1 = true →
      hasUID (stepProcessPod s e).1 e.uid = true := by
  unfold stepProcessPod
  split_ifs <;> intro h
  · exact absurd h (by simp)
  · exact absurd h (by simp)
  · exact absurd h (by simp)
  · show hasUID (addUID e.time e.uid (expireUIDs e.time s)) e.uid = true
    unfold hasUID
    rw [lookupUID_add_self]
    rfl

/-- A sweep survivor carries its original timestamp, which is
unexpired. -/
lemma expire_lookup_some {s : UIDSet} (hnd : NodupKeys s)
    {now t0 t1 : Nat} {uid : String} (hl : lookupUID s uid = some t0)
    (h1 : lookupUID (expireUIDs now s) uid = some t1) :
    t1 = t0 ∧ now - t0 ≤ cacheTTL := by
  rw [lookupUID_expire now hnd uid, hl] at h1
  have h2 : (if now - t0 ≤ cacheTTL then some t0 else none) = some t1 := h1
  by_cases hk : now - t0 ≤ cacheTTL
  · rw [if_pos hk] at h2
    exact ⟨(Option.some.inj h2).symm, hk⟩
  · rw [if_neg hk] at h2
    cases h2

/-- A sweep casualty was expired. -/
lemma expire_lookup_none {s : UIDSet} (hnd : NodupKeys s)
    {now t0 : Nat} {uid : String} (hl : lookupUID s uid = some t0)
    (h1 : lookupUID (expireUIDs now s) uid = none) :
    cacheTTL < now - t0 := by
  rw [lookupUID_expire now hnd uid, hl] at h1
  have h2 : (if now - t0 ≤ cacheTTL then some t0 else none)
      = (none : Option Nat) := h1
  by_cases hk : now - t0 ≤ cacheTTL
  · rw [if_pos hk] at h2
    cases h2
  · omega

/-- Entries present after the sweep were present before it. -/
lemma expire_lookup_rev {s : UIDSet} (hnd : NodupKeys s)
    {now t1 : Nat} {uid : String}
    (h1 : lookupUID (expireUIDs now s) uid = some t1) :
    lookupUID s uid = some t1 := by
  rw [lookupUID_expire now hnd uid] at h1
  cases hl : lookupUID s uid with
  | none =>
    rw [hl] at h1
    cases h1
  | some t =>
    rw [hl] at h1
    have h2 : (if now - t ≤ cacheTTL then some t else none) = some t1 := h1
    by_cases hk : now - t ≤ cacheTTL
    · rw [if_pos hk] at h2
      rw [h2]
    · rw [if_neg hk] at h2
      cases h2

/-- Every recorded pipeline time is the time of one of the trace's
events. -/
lemma execTimesU_mem_times (uid : String) :
    ∀ (evs : List PodEvent) (s : UIDSet) {b : Nat},
      b ∈ execTimesU uid s evs → ∃ e ∈ evs, b = e.time
  | [], _, _, h => absurd h (List.not_mem_nil _)
  | e :: rest, s, b, h => by
    unfold execTimesU at h
    rcases List.mem_append.mp h with h1 | h1
    · by_cases hg : ((stepProcessPod s e).2.1 && (e.uid == uid)) = true
      · rw [if_pos hg] at h1
        rw [List.mem_singleton] at h1
        exact ⟨e, List.mem_cons_self _ _, h1⟩
      · rw [if_neg hg] at h1
        exact absurd h1 (List.not_mem_nil _)
    · obtain ⟨e2, he2, hb⟩ := execTimesU_mem_times uid rest _ h1
      exact ⟨e2, List.mem_cons_of_mem _ he2, hb⟩

/-- The sink-call times are a sublist of the pipeline-run times. -/
lemma sinkTimesU_sublist (uid : String) :
    ∀ (evs : List PodEvent) (s : UIDSet),
      (sinkTimesU uid s evs).Sublist (execTimesU uid s evs)
  | [], _ => List.Sublist.refl _
  | e :: rest, s => by
    unfold sinkTimesU execTimesU
    have ih := sinkTimesU_sublist uid rest (stepProcessPod s e).1
    by_cases hs2 : ((stepProcessPod s e).2.2 && (e.uid == uid)) = true
    · have hx : ((stepProcessPod s e).2.1 && (e.uid == uid)) = true := by
        rw [Bool.and_eq_true] at hs2 ⊢
        exact ⟨step_sink_imp_exec s e hs2.1, hs2.2⟩
      rw [if_pos hs2, if_pos hx]
      exact List.Sublist.cons₂ _ ih
    · rw [if_neg hs2]
      by_cases hx : ((stepProcessPod s e).2.1 && (e.uid == uid)) = true
      · rw [if_pos hx]
        exact List.Sublist.cons _ ih
      · rw [if_neg hx]
        exact ih

/-- Core dedup argument: starting from a duplicate-free set whose
entry for `uid` (if any) predates every event, the pipeline-run times
for `uid` along a time-sorted trace are pairwise more than `cacheTTL`
apart, and all of them postdate any current entry by more than
`cacheTTL`. -/
lemma execTimesU_spec (uid : String) :
    ∀ (evs : List PodEvent) (s : UIDSet),
      List.Pairwise (fun a b => a.time ≤ b.time) evs →
      NodupKeys s →
      (∀ e2 ∈ evs, ∀ t0, lookupUID s uid = some t0 → t0 ≤ e2.time) →
      List.Pairwise (fun a b => a + cacheTTL < b) (execTimesU uid s evs) ∧
        ∀ t0, lookupUID s uid = some t0 →
          ∀ b ∈ execTimesU uid s evs, t0 + cacheTTL < b
  | [], _, _, _, _ =>
    ⟨List.Pairwise.nil, fun _ _ b hb => absurd hb (List.not_mem_nil _)⟩
  | e :: rest, s, hp, hnd, hbound => by
    rw [List.pairwise_cons] at hp
    obtain ⟨hhead, hprest⟩ := hp
    have hnd1 : NodupKeys (expireUIDs e.time s) := nodupKeys_expire _ hnd
    have hbound1 : ∀ e2 ∈ rest, ∀ t0,
        lookupUID (expireUIDs e.time s) uid = some t0 → t0 ≤ e2.time :=
      fun e2 he2 t0 hl =>
        hbound e2 (List.mem_cons_of_mem _ he2) t0 (expire_lookup_rev hnd hl)
    -- the two branches in which the step skips with the swept set
    have hskipcase : stepProcessPod s e = (expireUIDs e.time s, false, false) →
        List.Pairwise (fun a b => a + cacheTTL < b)
          (execTimesU uid s (e :: rest)) ∧
          ∀ t0, lookupUID s uid = some t0 →
            ∀ b ∈ execTimesU uid s (e :: rest), t0 + cacheTTL < b := by
      intro hstep
      have hcons : execTimesU uid s (e :: rest)
          = execTimesU uid (expireUIDs e.time s) rest := by
        conv_lhs => unfold execTimesU
        rw [hstep]
        simp
      rw [hcons]
      have ih := execTimesU_spec uid rest (expireUIDs e.time s) hprest hnd1
        hbound1
      refine ⟨ih.1, ?_⟩
      intro t0 hl b hb
      cases hl1 : lookupUID (expireUIDs e.time s) uid with
      | some t1 =>
        have heq := (expire_lookup_some hnd hl hl1).1
        exact ih.2 t0 (heq ▸ hl1) b hb
      | none =>
        have hgap := expire_lookup_none hnd hl hl1
        have ht0 : t0 ≤ e.time := hbound e (List.mem_cons_self _ _) t0 hl
        obtain ⟨e2, he2, hb2⟩ := execTimesU_mem_times uid rest _ hb
        have hle := hhead e2 he2
        omega
    by_cases hready : e.ready = false
    · -- not ready: the set is untouched and nothing is recorded
      have hstep := step_not_ready (s := s) hready
      have hcons : execTimesU uid s (e :: rest) = execTimesU uid s rest := by
        conv_lhs => unfold execTimesU
        rw [hstep]
        simp
      rw [hcons]
      exact execTimesU_spec uid rest s hprest hnd
        fun e2 he2 => hbound e2 (List.mem_cons_of_mem _ he2)
    · have hready1 : e.ready = true := by
        cases h : e.ready
        · exact absurd h hready
        · rfl
      by_cases hhas : hasUID (expireUIDs e.time s) e.uid = true
      · exact hskipcase (step_has hready1 hhas)
      · rw [Bool.not_eq_true] at hhas
        by_cases hcanc : e.canceled = true
        · exact hskipcase (step_canceled hready1 hhas hcanc)
        · rw [Bool.not_eq_true] at hcanc
          have hstep := step_exec (s := s) hready1 hhas hcanc
          have hnd2 : NodupKeys (addUID e.time e.uid (expireUIDs e.time s)) :=
            nodupKeys_add _ _ hnd1
          by_cases huideq : (e.uid == uid) = true
          · -- the event is for our UID: it is recorded and stamped
            have hue : e.uid = uid := by simpa using huideq
            subst hue
            have hcons : execTimesU e.uid s (e :: rest)
                = e.time :: execTimesU e.uid
                    (addUID e.time e.uid (expireUIDs e.time s)) rest := by
              conv_lhs => unfold execTimesU
              rw [hstep]
              simp
            have hlook2 : lookupUID
                (addUID e.time e.uid (expireUIDs e.time s)) e.uid
                = some e.time := lookupUID_add_self _ _ _
            have hbound2 : ∀ e2 ∈ rest, ∀ t0,
                lookupUID (addUID e.time e.uid (expireUIDs e.time s)) e.uid
                  = some t0 → t0 ≤ e2.time := by
              intro e2 he2 t0 hl
              rw [hlook2] at hl
              cases Option.some.inj hl
              exact hhead e2 he2
            have ih := execTimesU_spec e.uid rest
              (addUID e.time e.uid (expireUIDs e.time s)) hprest hnd2 hbound2
            rw [hcons]
            constructor
            · rw [List.pairwise_cons]
              exact ⟨fun b hb => ih.2 e.time hlook2 b hb, ih.1⟩
            · intro t0 hl b hb
              have hnone : lookupUID (expireUIDs e.time s) e.uid = none := by
                cases hq : lookupUID (expireUIDs e.time s) e.uid with
                | none => rfl
                | some t2 =>
                  have : hasUID (expireUIDs e.time s) e.uid = true := by
                    unfold hasUID
                    rw [hq]
                    rfl
                  rw [this] at hhas
                  cases hhas
              have hgap := expire_lookup_none hnd hl hnone
              have ht0 : t0 ≤ e.time := hbound e (List.mem_cons_self _ _) t0 hl
              rcases List.mem_cons.mp hb with hb1 | hb1
              · omega
              · obtain ⟨e2, he2, hb2⟩ := execTimesU_mem_times e.uid rest _ hb1
                have hle := hhead e2 he2
                omega
          · -- the event is for another UID: our entry is untouched
            have hne : e.uid ≠ uid := by simpa using huideq
            have hcons : execTimesU uid s (e :: rest)
                = execTimesU uid
                    (addUID e.time e.uid (expireUIDs e.time s)) rest := by
              conv_lhs => unfold execTimesU
              rw [hstep]
              rw [Bool.not_eq_true] at huideq
              simp [huideq]
            have hlook2 : lookupUID
                (addUID e.time e.uid (expireUIDs e.time s)) uid
                = lookupUID (expireUIDs e.time s) uid :=
              lookupUID_add_ne hne _ _
            have hbound2 : ∀ e2 ∈ rest, ∀ t0,
                lookupUID (addUID e.time e.uid (expireUIDs e.time s)) uid
                  = some t0 → t0 ≤ e2.time :=
              fun e2 he2 t0 hl => hbound1 e2 he2 t0 (hlook2 ▸ hl)
            have ih := execTimesU_spec uid rest
              (addUID e.time e.uid (expireUIDs e.time s)) hprest hnd2 hbound2
            rw [hcons]
            refine ⟨ih.1, ?_⟩
            intro t0 hl b hb
            cases hl1 : lookupUID (expireUIDs e.time s) uid with
            | some t1 =>
              have heq := (expire_lookup_some hnd hl hl1).1
              exact ih.2 t0 (by rw [hlook2, hl1, heq]) b hb
            | none =>
              have hgap := expire_lookup_none hnd hl hl1
              have ht0 : t0 ≤ e.time := hbound e (List.mem_cons_self _ _) t0 hl
              obtain ⟨e2, he2, hb2⟩ := execTimesU_mem_times uid rest _ hb
              have hle := hhead e2 he2
              omega

/-- Times more than `cacheTTL` apart cannot both fall into one window
of width `cacheTTL`. -/
lemma pairwise_gap_window {l : List Nat}
    (hp : List.Pairwise (fun a b => a + cacheTTL < b) l) (w : Nat) :
    (l.filter fun t => decide (w ≤ t) && decide (t ≤ w + cacheTTL)).length
      ≤ 1 := by
  have hf := hp.filter (fun t => decide (w ≤ t) && decide (t ≤ w + cacheTTL))
  rcases hl2 : l.filter
      (fun t => decide (w ≤ t) && decide (t ≤ w + cacheTTL)) with _ | ⟨a, tl⟩
  · simp
  · rcases tl with _ | ⟨b, tl2⟩
    · simp
    · exfalso
      rw [hl2, List.pairwise_cons] at hf
      have hab := hf.1 b (List.mem_cons_self _ _)
      have hamem : a ∈ l.filter
          (fun t => decide (w ≤ t) && decide (t ≤ w + cacheTTL)) := by
        rw [hl2]
        exact List.mem_cons_self _ _
      have hbmem : b ∈ l.filter
          (fun t => decide (w ≤ t) && decide (t ≤ w + cacheTTL)) := by
        rw [hl2]
        exact List.mem_cons_of_mem _ (List.mem_cons_self _ _)
      have ha := (List.mem_filter.mp hamem).2
      have hb := (List.mem_filter.mp hbmem).2
      simp only [Bool.and_eq_true, decide_eq_true_eq] at ha hb
      omega

/-- Claim C2: along any time-ordered trace of `processPod` runs
starting from the empty dedup set, the sink receives the records of a
given pod UID at most once within any window of the 30-minute TTL; a
run that reaches the external pipeline marks the UID in the set
whatever the outcome (even a failed extraction consumes the dedup
slot, the set having been consulted before dispatch); and the sink is
reached only by runs that entered the pipeline. -/
theorem process_pod_dedup (evs : List PodEvent) (uid : String)
    (hs : List.Pairwise (fun a b => a.time ≤ b.time) evs) :
    (∀ w : Nat,
        ((sinkTimesU uid [] evs).filter fun t =>
          decide (w ≤ t) && decide (t ≤ w + cacheTTL)).length ≤ 1) ∧
      (∀ (s : UIDSet) (e : PodEvent), (stepProcessPod s e).2.1 = true →
        hasUID (stepProcessPod s e).1 e.uid = true) ∧
      (∀ (s : UIDSet) (e : PodEvent), (stepProcessPod s e).2.2 = true →
        (stepProcessPod s e).2.1 = true) := by
  refine ⟨?_, step_exec_consumes, step_sink_imp_exec⟩
  intro w
  have hpair := (execTimesU_spec uid evs [] hs (by simp [NodupKeys])
    (fun e he t0 hl => by simp [lookupUID, List.find?] at hl)).1
  exact pairwise_gap_window
    (List.Pairwise.sublist (sinkTimesU_sublist uid evs []) hpair) w

/-- Witness for `process_pod_dedup`: two ready runs of the same UID
one minute apart — the second is deduplicated, so the sink-call count
in the window starting at time zero stays at one. -/
theorem process_pod_dedup_witness :
    ((sinkTimesU "u" []
        [⟨"u", 0, true, false, PipeOutcome.writeOk⟩,
          ⟨"u", 60, true, false, PipeOutcome.writeOk⟩]).filter fun t =>
      decide (0 ≤ t) && decide (t ≤ 0 + cacheTTL)).length ≤ 1 :=
  (process_pod_dedup
    [⟨"u", 0, true, false, PipeOutcome.writeOk⟩,
      ⟨"u", 60, true, false, PipeOutcome.writeOk⟩] "u" (by decide)).1 0
